import Mathlib

/-!
Shallow embedding of the WebSHAP `KernelSHAP` explainer.

The repository ships the explainer's test-suite, a demo caller and a
math-library facade; the `KernelSHAP` class itself is not among the given
source files, so every operation below is modelled from the specification
(marked `Modelled from the spec:` in its doc comment) and checked against the
behaviour the test-suite pins down.  Scalars are embedded as `ℚ` for the
executable model (the regression is exact rational arithmetic) and as `ℝ` for
the bundled Iris logistic predictor, whose outputs are transcendental.
-/

namespace WebShap

/-- Modelled from the spec: the state of one `KernelSHAP` explainer instance.
`model` is the batched predictor `f : R^{m×d} → R^{m×k}`, `data` the background
matrix `X_bg`, `seed` the PRNG seed, `predictions` the cached `f(X_bg)`;
`nSamplesAdded`, `sampledData` and `kernelWeight` are the working sampling
state (absent until `prepareSampling` runs). -/
structure Explainer (α : Type) where
  model : List (List α) → List (List α)
  data : List (List α)
  seed : ℕ
  predictions : List (List α)
  nSamplesAdded : ℕ
  sampledData : Option (List (List α))
  kernelWeight : Option (List α)

/-- Modelled from the spec: `new KernelSHAP(model, data, seed)` caches
`predictions = f(X_bg)` at construction; the sampling state starts empty. -/
def kernelShap {α : Type} (f : List (List α) → List (List α))
    (data : List (List α)) (seed : ℕ) : Explainer α :=
  { model := f, data := data, seed := seed, predictions := f data,
    nSamplesAdded := 0, sampledData := none, kernelWeight := none }

/-- The background matrix stacked `m` times along the row axis. -/
def tileRows {α : Type} : ℕ → List (List α) → List (List α)
  | 0, _ => []
  | m + 1, bg => bg ++ tileRows m bg

/-- Modelled from the spec: `prepareSampling(M)` allocates the dense sample
matrix `S ∈ R^{M·n × d}` initialized as `X_bg` tiled `M` times, zeroes the
kernel-weight column and resets the sample counter. -/
def prepareSampling {α : Type} [Zero α] (e : Explainer α) (nSamples : ℕ) :
    Explainer α :=
  { e with sampledData := some (tileRows nSamples e.data),
           kernelWeight := some (List.replicate nSamples (0 : α)),
           nSamplesAdded := 0 }

/-- One row of a sample block: feature `j` takes `x_j` where the mask has
`z_j = 1` and keeps the background value where `z_j = 0`. -/
def maskRow {α : Type} [One α] [DecidableEq α] :
    List α → List α → List α → List α
  | zj :: zs, xj :: xs, bj :: bs =>
    (if zj = 1 then xj else bj) :: maskRow zs xs bs
  | _, _, _ => []

/-- Overwrite rows `[t·n, (t+1)·n)` of the sample matrix with the masked
query; `r` is the index of the first row of the remaining suffix. -/
def writeBlock {α : Type} [One α] [DecidableEq α] (t n : ℕ) (x z : List α) :
    ℕ → List (List α) → List (List α)
  | _, [] => []
  | r, row :: rest =>
    (if t * n ≤ r ∧ r < t * n + n then maskRow z x row else row) ::
      writeBlock t n x z (r + 1) rest

/-- Modelled from the spec: `addSample(x, mask, weight)` overwrites rows
`[t·n, (t+1)·n)` of the sample matrix for the next free slot
`t = nSamplesAdded`, records `kernelWeight[t] = weight` and increments
`nSamplesAdded`.  It needs `prepareSampling` to have run. -/
def addSample {α : Type} [One α] [DecidableEq α] (e : Explainer α)
    (x z : List α) (w : α) : Explainer α :=
  match e.sampledData, e.kernelWeight with
  | some s, some kw =>
    { e with
      sampledData := some (writeBlock e.nSamplesAdded e.data.length x z 0 s),
      kernelWeight := some (kw.set e.nSamplesAdded w),
      nSamplesAdded := e.nSamplesAdded + 1 }
  | _, _ => e

/-- The arguments of one `addSample` call. -/
structure SamplePoint (α : Type) where
  x : List α
  z : List α
  w : α

/-- A sequence of `addSample` calls, applied in order. -/
def addSamples {α : Type} [One α] [DecidableEq α] (e : Explainer α)
    (ss : List (SamplePoint α)) : Explainer α :=
  ss.foldl (fun ec s => addSample ec s.x s.z s.w) e

/-- Entry `(r, c)` of a row-major matrix held as a list of rows. -/
def matrixEntry {α : Type} [Zero α] (s : List (List α)) (r c : ℕ) : α :=
  (s.getD r []).getD c (0 : α)

/-- Every row has width `d`. -/
def wfRows {α : Type} (d : ℕ) (rows : List (List α)) : Prop :=
  ∀ r ∈ rows, r.length = d

/-- Every recorded call passes a query and a mask of width `d`. -/
def wfSamples {α : Type} (d : ℕ) (ss : List (SamplePoint α)) : Prop :=
  ∀ s ∈ ss, s.x.length = d ∧ s.z.length = d

instance {α : Type} (d : ℕ) (rows : List (List α)) : Decidable (wfRows d rows) :=
  decidable_of_iff (∀ r ∈ rows, r.length = d) Iff.rfl

instance {α : Type} (d : ℕ) (ss : List (SamplePoint α)) :
    Decidable (wfSamples d ss) :=
  decidable_of_iff (∀ s ∈ ss, s.x.length = d ∧ s.z.length = d) Iff.rfl

/-- The output dimension `k`, read off the cached background predictions. -/
def numClasses {α : Type} (e : Explainer α) : ℕ :=
  (e.predictions.headD []).length

/-- Modelled from the spec: the base value `φ_0 = mean(f(X_bg), axis=0)`,
derived from the predictions cached at construction; `base_value()` returns
it. -/
def baseValue {α : Type} [DivisionRing α] (e : Explainer α) : List α :=
  (List.range (numClasses e)).map fun c =>
    (e.predictions.map fun row => row.getD c (0 : α)).sum /
      (e.predictions.length : α)

/-- The target prediction `f(x)` for a single query row. -/
def queryPrediction {α : Type} (e : Explainer α) (x : List α) : List α :=
  (e.model [x]).headD []

/-- The feature count `d`, read off the background matrix. -/
def featureCount {α : Type} (e : Explainer α) : ℕ :=
  (e.data.headD []).length

/-- Modelled from the spec: the explainer's error kinds. -/
inductive ShapError where
  | shapeMismatch
  | budgetTooSmall
  | nonFinitePrediction
  | degenerateSystem
  deriving DecidableEq

/-- The value returned by `explain`: the base value `φ_0 ∈ R^k` and one
attribution vector `φ ∈ R^d` per output class. -/
structure ExplainResult where
  phi0 : List ℚ
  phi : List (List ℚ)
  deriving DecidableEq

/-- Modelled from the spec: a linear-congruential PRNG step on 64-bit state
(the constants are free as long as determinism holds). -/
def lcgNext (s : ℕ) : ℕ :=
  (6364136223846793005 * s + 1442695040888963407) % 18446744073709551616

/-- A pseudo-random draw below `k`, returning the new state. -/
def randBelow (s k : ℕ) : ℕ × ℕ :=
  let s' := lcgNext s
  (s' % k, s')

/-- The `{0,1}`-mask of width `d` whose present positions are `pos`. -/
def maskOf (d : ℕ) (pos : List ℕ) : List ℚ :=
  (List.range d).map fun j => if j ∈ pos then (1 : ℚ) else 0

/-- All masks of coalition size `s` out of `d`, in enumeration order. -/
def allMasksOfSize (d s : ℕ) : List (List ℚ) :=
  (List.sublistsLen s (List.range d)).map (maskOf d)

/-- The complementary mask `1 − z`. -/
def complementMask (z : List ℚ) : List ℚ :=
  z.map fun v => 1 - v

/-- The per-size weight `ω(s) = (d−1)/(s·(d−s))`. -/
def omegaSize (d s : ℕ) : ℚ :=
  ((d : ℚ) - 1) / ((s : ℚ) * ((d : ℚ) - (s : ℚ)))

/-- The SHAP kernel weight `w(s) = (d−1)/(C(d,s)·s·(d−s))` of one mask of
size `s`. -/
def kernelW (d s : ℕ) : ℚ :=
  omegaSize d s / (Nat.choose d s : ℚ)

/-- The interior subset sizes from `s` to `d − s` that a stopped enumeration
hands to the Monte-Carlo stage. -/
def remainingSizes (d s : ℕ) : List ℕ :=
  (List.range d).filter fun t => s ≤ t ∧ t ≤ d - s

/-- Modelled from the spec: walk subset sizes from the extremes inward
(`s` paired with `d−s`) and enumerate every mask of a pair that fully fits in
the remaining budget, at full kernel weight; stop at the first pair that does
not fit and hand the remaining sizes and budget to the Monte-Carlo stage.
Returns `(enumerated pairs, remaining sizes, remaining budget)`. -/
def enumStage (d : ℕ) : ℕ → ℕ → ℕ → List (List ℚ × ℚ) × List ℕ × ℕ
  | 0, s, budget => ([], remainingSizes d s, budget)
  | fuel + 1, s, budget =>
    if s ≤ d - s ∧ 0 < d - s then
      let cnt := if s = d - s then Nat.choose d s else 2 * Nat.choose d s
      if cnt ≤ budget then
        let ms :=
          (allMasksOfSize d s).map (fun z => (z, kernelW d s)) ++
            (if s = d - s then []
             else (allMasksOfSize d (d - s)).map fun z => (z, kernelW d (d - s)))
        let rec' := enumStage d fuel (s + 1) (budget - cnt)
        (ms ++ rec'.1, rec'.2.1, rec'.2.2)
      else ([], remainingSizes d s, budget)
    else ([], [], budget)

/-- Pick the subset size whose cumulative normalized weight bracket contains
`u`. -/
def pickSize : List (ℕ × ℚ) → ℚ → ℕ
  | [], _ => 0
  | (s, w) :: rest, u => if u < w then s else pickSize rest (u - w)

/-- Draw `k` distinct positions, uniformly without replacement. -/
def drawDistinct : ℕ → List ℕ → ℕ → List ℕ × ℕ
  | 0, _, seed => ([], seed)
  | k + 1, avail, seed =>
    if avail.length = 0 then ([], seed)
    else
      let pr := randBelow seed avail.length
      let p := avail.getD pr.1 0
      let rest := drawDistinct k (avail.eraseIdx pr.1) pr.2
      (p :: rest.1, rest.2)

/-- Modelled from the spec: the Monte-Carlo stage draws a size from the
normalized distribution over the un-enumerated sizes, then `s` positions
uniformly without replacement; each drawn mask is paired with its complement,
both weighted `1/R`, and the final pair is truncated to one mask when `R` is
odd. -/
def mcLoop (d : ℕ) (ws : List (ℕ × ℚ)) (total : ℚ) (bigR : ℕ) :
    ℕ → ℕ → ℕ → List (List ℚ × ℚ)
  | 0, _, _ => []
  | fuel + 1, left, seed =>
    if left = 0 then []
    else
      let r1 := randBelow seed 1048576
      let u := total * (r1.1 : ℚ) / 1048576
      let sz := pickSize ws u
      let ps := drawDistinct sz (List.range d) r1.2
      let z := maskOf d ps.1
      if left = 1 then [(z, 1 / (bigR : ℚ))]
      else (z, 1 / (bigR : ℚ)) :: (complementMask z, 1 / (bigR : ℚ)) ::
        mcLoop d ws total bigR fuel (left - 2) ps.2

/-- Modelled from the spec: the coalition enumerator and sampler, an ordered
stream of `(mask, weight)` pairs totalling at most `M`, reproducible from the
seed. -/
def sampleCoalitions (d bigM seed : ℕ) : List (List ℚ × ℚ) :=
  let st := enumStage d d 1 bigM
  let ws := st.2.1.map fun s => (s, omegaSize d s)
  let total := (ws.map Prod.snd).sum
  if st.2.1.length = 0 then st.1
  else st.1 ++ mcLoop d ws total st.2.2 st.2.2 st.2.2 seed

/-- Find the first row with a nonzero leading coefficient; return it and the
other rows in order. -/
def pivotRow : List (List ℚ) → Option (List ℚ × List (List ℚ))
  | [] => none
  | r :: rs =>
    if r.headD 0 ≠ 0 then some (r, rs)
    else
      match pivotRow rs with
      | none => none
      | some pr => some (pr.1, r :: pr.2)

/-- Gaussian elimination on an augmented system of `m` unknowns (each row is
`m` coefficients followed by the right-hand side); `none` when the system is
singular. -/
def gaussSolve : ℕ → List (List ℚ) → Option (List ℚ)
  | 0, _ => some []
  | m + 1, rows =>
    match pivotRow rows with
    | none => none
    | some pr =>
      let p := pr.1
      let pv := p.headD 0
      let reduced := pr.2.map fun r =>
        (r.tail.zip p.tail).map fun ab => ab.1 - r.headD 0 / pv * ab.2
      match gaussSolve m reduced with
      | none => none
      | some xs =>
        let t := p.tail
        let x0 := (t.getD m 0 - ((t.zip xs).map fun ab => ab.1 * ab.2).sum) / pv
        some (x0 :: xs)

/-- Modelled from the spec: the weighted constrained regression for one output
class.  The constraint `Σ_j φ_j = f(x)_c − φ_0,c` eliminates the last
coefficient, the reduced weighted least-squares is solved through the normal
equations with ridge `λ = 1e−8 · trace/d`, and the dropped coefficient is
recovered from the constraint. -/
def solveClass (d : ℕ) (zMat : List (List ℚ)) (wVec yVec : List ℚ)
    (phi0c fxc : ℚ) : Option (List ℚ) :=
  let m := d - 1
  let zTil := zMat.map fun z =>
    (List.range m).map fun j => z.getD j 0 - z.getD (d - 1) 0
  let yTil := (zMat.zip yVec).map fun zy =>
    zy.2 - phi0c - zy.1.getD (d - 1) 0 * (fxc - phi0c)
  let aMat := (List.range m).map fun j1 => (List.range m).map fun j2 =>
    ((List.range zMat.length).map fun t =>
      wVec.getD t 0 * (zTil.getD t []).getD j1 0 * (zTil.getD t []).getD j2 0).sum
  let bVec := (List.range m).map fun j1 =>
    ((List.range zMat.length).map fun t =>
      wVec.getD t 0 * (zTil.getD t []).getD j1 0 * yTil.getD t 0).sum
  let tr := ((List.range m).map fun j => (aMat.getD j []).getD j 0).sum
  let ridge := tr / (100000000 * (d : ℚ))
  let aug := (List.range m).map fun j1 =>
    ((List.range m).map fun j2 =>
      (aMat.getD j1 []).getD j2 0 + if j1 = j2 then ridge else 0) ++
      [bVec.getD j1 0]
  (gaussSolve m aug).map fun psi => psi ++ [fxc - phi0c - psi.sum]

/-- Modelled from the spec: the per-class pipeline of one explanation — sample
coalitions, build the synthetic sample matrix through `addSample`, invoke the
predictor once, average each `n`-row block into `yBar`, and solve the
constrained weighted regression of class `c`. -/
def classSolution (e : Explainer ℚ) (x : List ℚ) (nSamples c : ℕ) :
    Option (List ℚ) :=
  let d := featureCount e
  let n := e.data.length
  let masks := sampleCoalitions d nSamples e.seed
  let filled :=
    masks.foldl (fun ec mw => addSample ec x mw.1 mw.2) (prepareSampling e nSamples)
  let preds := e.model (filled.sampledData.getD [])
  let yC := (List.range masks.length).map fun t =>
    ((List.range n).map fun i => (preds.getD (t * n + i) []).getD c 0).sum /
      (n : ℚ)
  solveClass d (masks.map Prod.fst) (masks.map Prod.snd) yC
    ((baseValue e).getD c 0) ((queryPrediction e x).getD c 0)

/-- The regression solutions of every output class. -/
def explainSols (e : Explainer ℚ) (x : List ℚ) (nSamples : ℕ) :
    List (Option (List ℚ)) :=
  (List.range (numClasses e)).map (classSolution e x nSamples)

/-- Modelled from the spec: one explanation of a single query `x` with sample
budget `nSamples`.  Validates the budget (`M < 2d` is fatal, surfaced as
`budgetTooSmall`) and the query shape, then runs the per-class pipeline; a
singular regression system surfaces as `degenerateSystem` and no partial
result is returned. -/
def explain (e : Explainer ℚ) (x : List ℚ) (nSamples : ℕ) :
    Except ShapError ExplainResult :=
  if nSamples < 2 * featureCount e then .error .budgetTooSmall
  else if x.length ≠ featureCount e then .error .shapeMismatch
  else if (explainSols e x nSamples).all Option.isSome then
    .ok ⟨baseValue e, (explainSols e x nSamples).map fun s => s.getD []⟩
  else .error .degenerateSystem

/-- Modelled from the spec: the bundled Iris example's logistic sigmoid. -/
noncomputable def sigmoid (t : ℝ) : ℝ :=
  1 / (1 + Real.exp (-t))

/-- The S1 coefficients `β` of the linear-binary Iris predictor. -/
noncomputable def irisCoef : List ℝ :=
  [-0.1991, 0.3426, 0.0478, 1.03745]

/-- The S1 intercept `b`. -/
noncomputable def irisIntercept : ℝ :=
  -1.6689

/-- Dot product of two feature lists. -/
def dotList (a b : List ℝ) : ℝ :=
  ((a.zip b).map fun p => p.1 * p.2).sum

/-- Modelled from the spec: `IrisLinearBinary.predictProba` gives the class-1
probability `σ(x·β + b)` of one row. -/
noncomputable def irisPredictRow (r : List ℝ) : ℝ :=
  sigmoid (dotList r irisCoef + irisIntercept)

/-- The batched Iris predictor (one class-1 probability per row). -/
noncomputable def irisModel : List (List ℝ) → List (List ℝ) :=
  fun rows => rows.map fun r => [irisPredictRow r]

/-- The S1 five-row Iris background matrix. -/
noncomputable def irisData : List (List ℝ) :=
  [[5.8, 2.8, 5.1, 2.4],
   [5.8, 2.7, 5.1, 1.9],
   [7.2, 3.6, 6.1, 2.5],
   [6.2, 2.8, 4.8, 1.8],
   [4.9, 3.1, 1.5, 0.1]]

/-- The S1 explainer, as the test-suite constructs it. -/
noncomputable def irisExplainer : Explainer ℝ :=
  kernelShap irisModel irisData 0

/-- The class-1 prediction the explainer caches for background row `i`. -/
noncomputable def irisPredictionAt (i : ℕ) : ℝ :=
  (irisExplainer.predictions.getD i []).getD 0 0

/-- The class-1 base value of the S1 explainer. -/
noncomputable def irisBaseValue : ℝ :=
  (baseValue irisExplainer).getD 0 0

/-- A tiny concrete background (one row, two features) for witnesses. -/
def exData : List (List ℚ) :=
  [[1, 2]]

/-- The identity predictor used at witnesses. -/
def exModel : List (List ℚ) → List (List ℚ) :=
  fun rows => rows

/-- A predictor summing each row (one output class). -/
def exSumModel : List (List ℚ) → List (List ℚ) :=
  fun rows => rows.map fun r => [r.sum]

/-- A prepared two-slot explainer over `exData`. -/
def exPrepared : Explainer ℚ :=
  prepareSampling (kernelShap exModel exData 0) 2

/-- A first concrete `addSample` argument triple. -/
def exPoint : SamplePoint ℚ :=
  ⟨[9, 8], [1, 0], 7⟩

/-- A second concrete `addSample` argument triple. -/
def exPoint2 : SamplePoint ℚ :=
  ⟨[4, 5], [0, 1], 3⟩

section StructuralLemmas

variable {α : Type}

theorem tileRows_length (m : ℕ) (bg : List (List α)) :
    (tileRows m bg).length = m * bg.length := by
  induction m with
  | zero => simp [tileRows]
  | succ k ih => simp [tileRows, ih, Nat.succ_mul, Nat.add_comm]

theorem tileRows_getElem? (m t i : ℕ) (bg : List (List α))
    (ht : t < m) (hi : i < bg.length) :
    (tileRows m bg)[t * bg.length + i]? = bg[i]? := by
  induction m generalizing t with
  | zero => omega
  | succ k ih =>
    cases t with
    | zero =>
      simpa [tileRows] using List.getElem?_append_left hi
    | succ s =>
      have hlen : bg.length ≤ (s + 1) * bg.length + i := by
        calc bg.length ≤ (s + 1) * bg.length := by
              simpa using Nat.le_mul_of_pos_left bg.length (Nat.succ_pos s)
          _ ≤ (s + 1) * bg.length + i := Nat.le_add_right _ _
      have hidx : (s + 1) * bg.length + i - bg.length = s * bg.length + i := by
        have : (s + 1) * bg.length = s * bg.length + bg.length := by ring
        omega
      rw [tileRows, List.getElem?_append_right hlen, hidx]
      exact ih s (by omega)

theorem tileRows_mem {row : List α} {m : ℕ} {bg : List (List α)}
    (h : row ∈ tileRows m bg) : row ∈ bg := by
  induction m with
  | zero => simp [tileRows] at h
  | succ k ih =>
    rw [tileRows, List.mem_append] at h
    exact h.elim id ih

theorem maskRow_length [One α] [DecidableEq α] (z x bg : List α) (d : ℕ)
    (hz : z.length = d) (hx : x.length = d) (hbg : bg.length = d) :
    (maskRow z x bg).length = d := by
  induction z generalizing x bg d with
  | nil =>
    cases x <;> cases bg <;> simp_all [maskRow]
  | cons zj zs ih =>
    cases x with
    | nil => simp at hz hx; omega
    | cons xj xs =>
      cases bg with
      | nil => simp at hz hbg; omega
      | cons bj bs =>
        cases d with
        | zero => simp at hz
        | succ d' =>
          simp only [maskRow, List.length_cons]
          simp only [List.length_cons] at hz hx hbg
          rw [ih xs bs d' (by omega) (by omega) (by omega)]

theorem maskRow_getD [Zero α] [One α] [DecidableEq α]
    (z x bg : List α) (d j : ℕ)
    (hz : z.length = d) (hx : x.length = d) (hbg : bg.length = d) (hj : j < d) :
    (maskRow z x bg).getD j 0 =
      if z.getD j 0 = 1 then x.getD j 0 else bg.getD j 0 := by
  induction z generalizing x bg d j with
  | nil => simp at hz; omega
  | cons zj zs ih =>
    cases x with
    | nil => simp at hx; omega
    | cons xj xs =>
      cases bg with
      | nil => simp at hbg; omega
      | cons bj bs =>
        cases d with
        | zero => omega
        | succ d' =>
          cases j with
          | zero => simp [maskRow]
          | succ j' =>
            simp only [maskRow, List.getD_cons_succ]
            simp only [List.length_cons] at hz hx hbg
            exact ih xs bs d' j' (by omega) (by omega) (by omega) (by omega)

theorem writeBlock_getElem? [One α] [DecidableEq α] (t n : ℕ) (x z : List α)
    (s : List (List α)) (r0 i : ℕ) :
    (writeBlock t n x z r0 s)[i]? =
      (s[i]?).map fun row =>
        if t * n ≤ r0 + i ∧ r0 + i < t * n + n then maskRow z x row else row := by
  induction s generalizing r0 i with
  | nil => simp [writeBlock]
  | cons row rest ih =>
    cases i with
    | zero => simp [writeBlock]
    | succ i' =>
      simp only [writeBlock, List.getElem?_cons_succ]
      rw [ih (r0 + 1) i']
      have : r0 + 1 + i' = r0 + (i' + 1) := by omega
      rw [this]

theorem writeBlock_length [One α] [DecidableEq α] (t n : ℕ) (x z : List α)
    (s : List (List α)) (r0 : ℕ) :
    (writeBlock t n x z r0 s).length = s.length := by
  induction s generalizing r0 with
  | nil => simp [writeBlock]
  | cons row rest ih => simp [writeBlock, ih]

theorem writeBlock_mem [One α] [DecidableEq α] {t n : ℕ} {x z : List α}
    {s : List (List α)} {r0 : ℕ} {y : List α}
    (h : y ∈ writeBlock t n x z r0 s) :
    y ∈ s ∨ ∃ row ∈ s, y = maskRow z x row := by
  induction s generalizing r0 with
  | nil => simp [writeBlock] at h
  | cons row rest ih =>
    rw [writeBlock, List.mem_cons] at h
    rcases h with h | h
    · by_cases hc : t * n ≤ r0 ∧ r0 < t * n + n
      · rw [if_pos hc] at h
        exact Or.inr ⟨row, List.mem_cons_self .., h⟩
      · rw [if_neg hc] at h
        exact Or.inl (h ▸ List.mem_cons_self ..)
    · rcases ih h with h' | ⟨row', hmem, heq⟩
      · exact Or.inl (List.mem_cons_of_mem _ h')
      · exact Or.inr ⟨row', List.mem_cons_of_mem _ hmem, heq⟩

end StructuralLemmas

section InvariantLemmas

theorem blockIndex_lt {t bigT n i : ℕ} (h : t < bigT) (hi : i < n) :
    t * n + i < bigT * n := by
  calc t * n + i < t * n + n := by omega
    _ = (t + 1) * n := by ring
    _ ≤ bigT * n := Nat.mul_le_mul_right n h

theorem blockIndex_ge {bigT t n i : ℕ} (h : bigT + 1 ≤ t) :
    bigT * n + n ≤ t * n + i := by
  calc bigT * n + n = (bigT + 1) * n := by ring
    _ ≤ t * n := Nat.mul_le_mul_right n h
    _ ≤ t * n + i := Nat.le_add_right _ _

theorem addSamples_state (f : List (List ℚ) → List (List ℚ))
    (data : List (List ℚ)) (seed bigM : ℕ) (ss : List (SamplePoint ℚ)) (d : ℕ)
    (hdata : wfRows d data) (hss : wfSamples d ss) (hM : ss.length ≤ bigM) :
    ∃ sMat kw,
      (addSamples (prepareSampling (kernelShap f data seed) bigM) ss).sampledData
          = some sMat ∧
      (addSamples (prepareSampling (kernelShap f data seed) bigM) ss).kernelWeight
          = some kw ∧
      (addSamples (prepareSampling (kernelShap f data seed) bigM) ss).nSamplesAdded
          = ss.length ∧
      (addSamples (prepareSampling (kernelShap f data seed) bigM) ss).data = data ∧
      sMat.length = bigM * data.length ∧ kw.length = bigM ∧ wfRows d sMat ∧
      (∀ t, t < ss.length → ∀ i, i < data.length →
        sMat[t * data.length + i]? =
          some (maskRow (ss.getD t ⟨[], [], 0⟩).z (ss.getD t ⟨[], [], 0⟩).x
            (data.getD i []))) ∧
      (∀ t, ss.length ≤ t → t < bigM → ∀ i, i < data.length →
        sMat[t * data.length + i]? = data[i]?) ∧
      (∀ t, t < ss.length → kw[t]? = some (ss.getD t ⟨[], [], 0⟩).w) := by
  induction ss using List.reverseRecOn with
  | nil =>
    refine ⟨tileRows bigM data, List.replicate bigM 0, by
      simp [addSamples, prepareSampling, kernelShap], by
      simp [addSamples, prepareSampling, kernelShap], by
      simp [addSamples, prepareSampling, kernelShap], by
      simp [addSamples, prepareSampling, kernelShap],
      tileRows_length bigM data, List.length_replicate .., ?_, ?_, ?_, ?_⟩
    · exact fun r hr => hdata r (tileRows_mem hr)
    · intro t ht
      simp at ht
    · intro t _ ht i hi
      exact tileRows_getElem? bigM t i data ht hi
    · intro t ht
      simp at ht
  | append_singleton ss s ih =>
    have hlen : (ss ++ [s]).length = ss.length + 1 := by simp
    rw [hlen] at hM
    have hs : s.x.length = d ∧ s.z.length = d :=
      hss s (List.mem_append.2 (Or.inr (List.mem_singleton_self s)))
    have hssl : wfSamples d ss := fun q hq => hss q (List.mem_append.2 (Or.inl hq))
    obtain ⟨sMat, kw, hS, hkw, hn, hdat, hSlen, hkwlen, hwf, hmask, hbg, hkwval⟩ :=
      ih hssl (by omega)
    have hsplit :
        addSamples (prepareSampling (kernelShap f data seed) bigM) (ss ++ [s]) =
          addSample (addSamples (prepareSampling (kernelShap f data seed) bigM) ss)
            s.x s.z s.w := by
      simp [addSamples, List.foldl_append]
    set ePrev := addSamples (prepareSampling (kernelShap f data seed) bigM) ss
      with hePrev
    have hstep :
        addSample ePrev s.x s.z s.w =
          { ePrev with
            sampledData :=
              some (writeBlock ss.length data.length s.x s.z 0 sMat),
            kernelWeight := some (kw.set ss.length s.w),
            nSamplesAdded := ss.length + 1 } := by
      rw [addSample, hS, hkw, hn, hdat]
    rw [hsplit, hstep]
    have hgetd : (ss ++ [s]).getD ss.length ⟨[], [], 0⟩ = s := by
      rw [List.getD_append_right ss [s] ⟨[], [], 0⟩ ss.length (le_refl _)]
      simp
    refine ⟨writeBlock ss.length data.length s.x s.z 0 sMat, kw.set ss.length s.w,
      rfl, rfl, by rw [hlen], hdat, ?_, ?_, ?_, ?_, ?_, ?_⟩
    · rw [writeBlock_length, hSlen]
    · rw [List.length_set, hkwlen]
    · intro r hr
      rcases writeBlock_mem hr with hmem | ⟨row, hrow, heq⟩
      · exact hwf r hmem
      · rw [heq]
        exact maskRow_length s.z s.x row d hs.2 hs.1 (hwf row hrow)
    · intro t ht i hi
      rw [hlen] at ht
      rw [writeBlock_getElem?]
      rcases Nat.lt_or_ge t ss.length with htl | htg
      · have hcond : ¬(ss.length * data.length ≤ 0 + (t * data.length + i) ∧
            0 + (t * data.length + i) < ss.length * data.length + data.length) := by
          have := blockIndex_lt htl hi
          omega
        rw [hmask t htl i hi, Option.map_some', if_neg hcond,
          List.getD_append ss [s] ⟨[], [], 0⟩ t htl]
      · have hteq : t = ss.length := by omega
        subst hteq
        have hcond : ss.length * data.length ≤ 0 + (ss.length * data.length + i) ∧
            0 + (ss.length * data.length + i) <
              ss.length * data.length + data.length := by omega
        rw [hbg ss.length (le_refl _) (by omega) i hi,
          List.getElem?_eq_getElem hi, Option.map_some', if_pos hcond, hgetd,
          List.getD_eq_getElem data [] hi]
    · intro t htlo thi i hi
      rw [hlen] at htlo
      rw [writeBlock_getElem?]
      have hcond : ¬(ss.length * data.length ≤ 0 + (t * data.length + i) ∧
          0 + (t * data.length + i) <
            ss.length * data.length + data.length) := by
        have := blockIndex_ge (i := i) (n := data.length) htlo
        omega
      rw [hbg t (by omega) thi i hi, List.getElem?_eq_getElem hi,
        Option.map_some', if_neg hcond]
    · intro t ht
      rw [hlen] at ht
      rcases Nat.lt_or_ge t ss.length with htl | htg
      · rw [List.getElem?_set_ne (by omega), hkwval t htl,
          List.getD_append ss [s] ⟨[], [], 0⟩ t htl]
      · have hteq : t = ss.length := by omega
        subst hteq
        rw [List.getElem?_set_eq_of_lt s.w (by omega), hgetd]

end InvariantLemmas

section ExplainLemmas

theorem solveClass_sum {d : ℕ} {zMat : List (List ℚ)} {wVec yVec : List ℚ}
    {phi0c fxc : ℚ} {phiC : List ℚ}
    (h : solveClass d zMat wVec yVec phi0c fxc = some phiC) :
    phiC.sum = fxc - phi0c := by
  simp only [solveClass] at h
  rcases Option.map_eq_some'.mp h with ⟨psi, _, hr⟩
  subst hr
  simp

theorem classSolution_sum {e : Explainer ℚ} {x : List ℚ} {nSamples c : ℕ}
    {phiC : List ℚ} (h : classSolution e x nSamples c = some phiC) :
    phiC.sum = (queryPrediction e x).getD c 0 - (baseValue e).getD c 0 := by
  simp only [classSolution] at h
  exact solveClass_sum h

theorem explain_okStructure (e : Explainer ℚ) (x : List ℚ) (nSamples : ℕ)
    (res : ExplainResult) (h : explain e x nSamples = Except.ok res) :
    res.phi0 = baseValue e ∧ res.phi.length = numClasses e ∧
      ∀ c, c < numClasses e →
        ∃ phiC, res.phi[c]? = some phiC ∧
          phiC.sum = (queryPrediction e x).getD c 0 - (baseValue e).getD c 0 := by
  simp only [explain] at h
  split at h
  · exact absurd h (by simp)
  split at h
  · exact absurd h (by simp)
  split at h
  case _ hall =>
    have hres :
        res = ⟨baseValue e, (explainSols e x nSamples).map fun s => s.getD []⟩ := by
      cases h
      rfl
    subst hres
    refine ⟨rfl, by simp [explainSols], ?_⟩
    intro c hc
    have hsol : (explainSols e x nSamples)[c]? =
        some (classSolution e x nSamples c) := by
      rw [explainSols, List.getElem?_map, List.getElem?_range hc, Option.map_some']
    have hmem : classSolution e x nSamples c ∈ explainSols e x nSamples :=
      List.getElem?_mem hsol
    have hsome : (classSolution e x nSamples c).isSome :=
      List.all_eq_true.mp hall _ hmem
    rcases Option.isSome_iff_exists.mp hsome with ⟨phiC, hphiC⟩
    refine ⟨phiC, ?_, classSolution_sum hphiC⟩
    simp only [List.getElem?_map, hsol]
    rw [hphiC]
    rfl
  · exact absurd h (by simp)

end ExplainLemmas

section RationalClaims

/-- C2: For every mask `z` added as the `t`-th sample over an `n`-row
background, every `i < n` and every feature `j < d`, row `t·n + i` of the
sample matrix holds `x_j` at columns where `z_j = 1` and `X_bg[i, j]` at
columns where `z_j = 0`. -/
theorem addSample_maskSemantics (f : List (List ℚ) → List (List ℚ))
    (data : List (List ℚ)) (seed bigM : ℕ) (ss : List (SamplePoint ℚ))
    (d t i j : ℕ) (hdata : wfRows d data) (hss : wfSamples d ss)
    (hM : ss.length ≤ bigM) (ht : t < ss.length) (hi : i < data.length)
    (hj : j < d) :
    matrixEntry
        ((addSamples (prepareSampling (kernelShap f data seed) bigM)
          ss).sampledData.getD [])
        (t * data.length + i) j =
      if (ss.getD t ⟨[], [], 0⟩).z.getD j 0 = 1 then
        (ss.getD t ⟨[], [], 0⟩).x.getD j 0
      else (data.getD i []).getD j 0 := by
  obtain ⟨sMat, kw, hS, hkw, hn, hdat, hSlen, hkwlen, hwf, hmask, hbg, hkwval⟩ :=
    addSamples_state f data seed bigM ss d hdata hss hM
  rw [hS]
  have hrow : sMat.getD (t * data.length + i) [] =
      maskRow (ss.getD t ⟨[], [], 0⟩).z (ss.getD t ⟨[], [], 0⟩).x
        (data.getD i []) := by
    rw [List.getD_eq_getElem?_getD, hmask t ht i hi]
    rfl
  have hsmem : ss.getD t ⟨[], [], 0⟩ ∈ ss := by
    rw [List.getD_eq_getElem _ _ ht]
    exact List.getElem_mem ..
  have hbl : (data.getD i []).length = d := by
    rw [List.getD_eq_getElem _ _ hi]
    exact hdata _ (List.getElem_mem ..)
  rw [matrixEntry, Option.getD_some, hrow]
  exact maskRow_getD _ _ _ d j (hss _ hsmem).2 (hss _ hsmem).1 hbl hj

/-- Witness for C2: adding mask `(1,0)` with `x = (9,8)` over the one-row
background `exData` makes entry `(0,0)` of the sample matrix equal `x_0`. -/
theorem addSample_maskSemantics_witness :
    wfSamples 2 [exPoint] ∧
    matrixEntry
        ((addSamples (prepareSampling (kernelShap exModel exData 0) 2)
          [exPoint]).sampledData.getD [])
        (0 * exData.length + 0) 0 =
      (if (([exPoint].getD 0 ⟨[], [], 0⟩).z.getD 0 0 = 1) then
        ([exPoint].getD 0 ⟨[], [], 0⟩).x.getD 0 0
      else (exData.getD 0 []).getD 0 0) :=
  ⟨by decide,
    addSample_maskSemantics exModel exData 0 2 [exPoint] 2 0 0 0 (by decide)
      (by decide) (by decide) (by decide) (by decide) (by decide)⟩

/-- C3: After `prepareSampling(M)` and before any `addSample`, the sample
matrix has exactly `M·n` rows of width `d` and every consecutive `n`-row
block equals the background matrix. -/
theorem prepareSampling_tiles (f : List (List ℚ) → List (List ℚ))
    (data : List (List ℚ)) (seed bigM d : ℕ) (hdata : wfRows d data) :
    ∃ sMat,
      (prepareSampling (kernelShap f data seed) bigM).sampledData = some sMat ∧
      sMat.length = bigM * data.length ∧ wfRows d sMat ∧
      ∀ t, t < bigM → ∀ i, i < data.length →
        sMat[t * data.length + i]? = data[i]? := by
  refine ⟨tileRows bigM data, rfl, tileRows_length .., ?_, ?_⟩
  · exact fun r hr => hdata r (tileRows_mem hr)
  · exact fun t ht i hi => tileRows_getElem? bigM t i data ht hi

/-- Witness for C3: three tiled copies of the two-feature background. -/
theorem prepareSampling_tiles_witness :
    wfRows 2 exData ∧
    ∃ sMat,
      (prepareSampling (kernelShap exModel exData 0) 3).sampledData = some sMat ∧
      sMat.length = 3 * exData.length ∧ wfRows 2 sMat ∧
      ∀ t, t < 3 → ∀ i, i < exData.length →
        sMat[t * exData.length + i]? = exData[i]? :=
  ⟨by decide, prepareSampling_tiles exModel exData 0 3 2 (by decide)⟩

/-- C4: an `addSample` call writing slot `t = nSamplesAdded` leaves every row
outside `[t·n, (t+1)·n)` of the sample matrix unchanged — previously filled
slots and untouched background blocks alike. -/
theorem addSample_frame (e : Explainer ℚ) (sMat : List (List ℚ))
    (kw : List ℚ) (x z : List ℚ) (w : ℚ) (r : ℕ)
    (hS : e.sampledData = some sMat) (hkw : e.kernelWeight = some kw)
    (hr : r < e.nSamplesAdded * e.data.length ∨
      (e.nSamplesAdded + 1) * e.data.length ≤ r) :
    ∃ sMat', (addSample e x z w).sampledData = some sMat' ∧
      sMat'[r]? = sMat[r]? := by
  have hstep : addSample e x z w =
      { e with
        sampledData :=
          some (writeBlock e.nSamplesAdded e.data.length x z 0 sMat),
        kernelWeight := some (kw.set e.nSamplesAdded w),
        nSamplesAdded := e.nSamplesAdded + 1 } := by
    rw [addSample, hS, hkw]
  rw [hstep]
  refine ⟨writeBlock e.nSamplesAdded e.data.length x z 0 sMat, rfl, ?_⟩
  rw [writeBlock_getElem?]
  have hcond : ¬(e.nSamplesAdded * e.data.length ≤ 0 + r ∧
      0 + r < e.nSamplesAdded * e.data.length + e.data.length) := by
    rcases hr with h | h
    · omega
    · have hmul : (e.nSamplesAdded + 1) * e.data.length =
          e.nSamplesAdded * e.data.length + e.data.length := by ring
      omega
  cases hsr : sMat[r]? with
  | none => simp
  | some row => rw [Option.map_some', if_neg hcond]

/-- Witness for C4: with no sample added yet (`t = 0`, `n = 1`), adding one
sample leaves row 1 (the second background block) unchanged. -/
theorem addSample_frame_witness :
    exPrepared.sampledData = some (tileRows 2 exData) ∧
    ∃ sMat', (addSample exPrepared [9, 8] [1, 0] 7).sampledData = some sMat' ∧
      sMat'[1]? = (tileRows 2 exData)[1]? :=
  ⟨rfl, addSample_frame exPrepared (tileRows 2 exData) (List.replicate 2 0)
    [9, 8] [1, 0] 7 1 rfl rfl (by decide)⟩

/-- C6: every `addSample` call records the supplied weight verbatim at
`kernelWeight[t]` for the slot `t` it fills and increments `nSamplesAdded` by
exactly one; after a sequence of `t` calls on a freshly prepared explainer,
`nSamplesAdded = t`. -/
theorem addSample_tracking :
    (∀ (e : Explainer ℚ) (sMat : List (List ℚ)) (kw : List ℚ)
        (x z : List ℚ) (w : ℚ),
      e.sampledData = some sMat → e.kernelWeight = some kw →
      (addSample e x z w).nSamplesAdded = e.nSamplesAdded + 1 ∧
        (addSample e x z w).kernelWeight = some (kw.set e.nSamplesAdded w) ∧
        (e.nSamplesAdded < kw.length →
          (kw.set e.nSamplesAdded w)[e.nSamplesAdded]? = some w)) ∧
    (∀ (f : List (List ℚ) → List (List ℚ)) (data : List (List ℚ))
        (seed bigM : ℕ) (ss : List (SamplePoint ℚ)) (d : ℕ),
      wfRows d data → wfSamples d ss → ss.length ≤ bigM →
      (addSamples (prepareSampling (kernelShap f data seed) bigM)
          ss).nSamplesAdded = ss.length ∧
        ∃ kw,
          (addSamples (prepareSampling (kernelShap f data seed) bigM)
            ss).kernelWeight = some kw ∧
          ∀ t, t < ss.length → kw[t]? = some (ss.getD t ⟨[], [], 0⟩).w) := by
  constructor
  · intro e sMat kw x z w hS hkw
    have hstep : addSample e x z w =
        { e with
          sampledData :=
            some (writeBlock e.nSamplesAdded e.data.length x z 0 sMat),
          kernelWeight := some (kw.set e.nSamplesAdded w),
          nSamplesAdded := e.nSamplesAdded + 1 } := by
      rw [addSample, hS, hkw]
    rw [hstep]
    exact ⟨rfl, rfl, fun hlt => List.getElem?_set_eq_of_lt w hlt⟩
  · intro f data seed bigM ss d hdata hss hM
    obtain ⟨sMat, kw, hS, hkw, hn, _, _, _, _, _, _, hkwval⟩ :=
      addSamples_state f data seed bigM ss d hdata hss hM
    exact ⟨hn, kw, hkw, hkwval⟩

/-- Witness for C6: one concrete call records weight `7` at slot 0 and counts
one sample. -/
theorem addSample_tracking_witness :
    ((addSample exPrepared [9, 8] [1, 0] 7).nSamplesAdded =
        exPrepared.nSamplesAdded + 1 ∧
      (addSample exPrepared [9, 8] [1, 0] 7).kernelWeight =
        some ((List.replicate 2 (0 : ℚ)).set exPrepared.nSamplesAdded 7) ∧
      (exPrepared.nSamplesAdded < (List.replicate 2 (0 : ℚ)).length →
        ((List.replicate 2 (0 : ℚ)).set
          exPrepared.nSamplesAdded 7)[exPrepared.nSamplesAdded]? = some 7)) ∧
    ((addSamples (prepareSampling (kernelShap exModel exData 0) 2)
        [exPoint]).nSamplesAdded = [exPoint].length ∧
      ∃ kw,
        (addSamples (prepareSampling (kernelShap exModel exData 0) 2)
          [exPoint]).kernelWeight = some kw ∧
        ∀ t, t < [exPoint].length →
          kw[t]? = some ([exPoint].getD t ⟨[], [], 0⟩).w) :=
  ⟨addSample_tracking.1 exPrepared (tileRows 2 exData) (List.replicate 2 0)
      [9, 8] [1, 0] 7 rfl rfl,
    addSample_tracking.2 exModel exData 0 2 [exPoint] 2 (by decide) (by decide)
      (by decide)⟩

/-- C10: every `addSample` call preserves the `M·n × d` shape fixed by
`prepareSampling(M)`, and the slot a call writes is determined solely by call
order — the `t`-th call (0-indexed) writes block `t`, whatever mask or weight
it passes. -/
theorem addSample_slotOrder (f : List (List ℚ) → List (List ℚ))
    (data : List (List ℚ)) (seed bigM : ℕ) (ss : List (SamplePoint ℚ))
    (d : ℕ) (hdata : wfRows d data) (hss : wfSamples d ss)
    (hM : ss.length ≤ bigM) :
    ∃ sMat,
      (addSamples (prepareSampling (kernelShap f data seed) bigM)
        ss).sampledData = some sMat ∧
      sMat.length = bigM * data.length ∧ wfRows d sMat ∧
      ∀ t, t < ss.length → ∀ i, i < data.length →
        sMat[t * data.length + i]? =
          some (maskRow (ss.getD t ⟨[], [], 0⟩).z (ss.getD t ⟨[], [], 0⟩).x
            (data.getD i [])) := by
  obtain ⟨sMat, kw, hS, _, _, _, hSlen, _, hwf, hmask, _, _⟩ :=
    addSamples_state f data seed bigM ss d hdata hss hM
  exact ⟨sMat, hS, hSlen, hwf, hmask⟩

/-- Witness for C10: two successive calls with different masks write blocks
0 and 1 in call order. -/
theorem addSample_slotOrder_witness :
    wfSamples 2 [exPoint, exPoint2] ∧
    ∃ sMat,
      (addSamples (prepareSampling (kernelShap exModel exData 0) 2)
        [exPoint, exPoint2]).sampledData = some sMat ∧
      sMat.length = 2 * exData.length ∧ wfRows 2 sMat ∧
      ∀ t, t < [exPoint, exPoint2].length → ∀ i, i < exData.length →
        sMat[t * exData.length + i]? =
          some (maskRow ([exPoint, exPoint2].getD t ⟨[], [], 0⟩).z
            ([exPoint, exPoint2].getD t ⟨[], [], 0⟩).x (exData.getD i [])) :=
  ⟨by decide, addSample_slotOrder exModel exData 0 2 [exPoint, exPoint2] 2
    (by decide) (by decide) (by decide)⟩

/-- C7: a call to `explain` whose sample budget is strictly below `2d` fails
with the `budgetTooSmall` error and produces no partial result. -/
theorem explain_budgetTooSmall (e : Explainer ℚ) (x : List ℚ) (nSamples : ℕ)
    (h : nSamples < 2 * featureCount e) :
    explain e x nSamples = Except.error ShapError.budgetTooSmall := by
  rw [explain, if_pos h]

/-- Witness for C7: budget 3 over two features (`2d = 4`) is rejected. -/
theorem explain_budgetTooSmall_witness :
    3 < 2 * featureCount (kernelShap exModel exData 0) ∧
    explain (kernelShap exModel exData 0) [9, 9] 3 =
      Except.error ShapError.budgetTooSmall :=
  ⟨by decide, explain_budgetTooSmall (kernelShap exModel exData 0) [9, 9] 3
    (by decide)⟩

/-- C8: `explain` is a pure function of the predictor, background data, seed,
query and budget — two runs with identical constructor inputs produce
identical attributions even when the scratch sampling state differs, because
the PRNG state is derived from the seed alone. -/
theorem explain_deterministic (f : List (List ℚ) → List (List ℚ))
    (data : List (List ℚ)) (seed : ℕ) (x : List ℚ) (nSamples : ℕ)
    (n1 n2 : ℕ) (s1 s2 : Option (List (List ℚ))) (k1 k2 : Option (List ℚ)) :
    explain ⟨f, data, seed, f data, n1, s1, k1⟩ x nSamples =
      explain ⟨f, data, seed, f data, n2, s2, k2⟩ x nSamples := rfl

/-- C1: every explanation `explain` actually returns satisfies, for every
output class `c`, the efficiency constraint
`|φ_0,c + Σ_j φ_{j,c} − f(x)_c| < 1e−6`; in the exact rational model the
dropped regression coefficient is recovered from the constraint, so the
difference is zero. -/
theorem explain_efficiency (e : Explainer ℚ) (x : List ℚ) (nSamples : ℕ)
    (res : ExplainResult) (h : explain e x nSamples = Except.ok res)
    (c : ℕ) (hc : c < res.phi.length) :
    |res.phi0.getD c 0 + (res.phi.getD c []).sum -
        (queryPrediction e x).getD c 0| < 1 / 1000000 := by
  obtain ⟨h0, hlen, hall⟩ := explain_okStructure e x nSamples res h
  rw [hlen] at hc
  obtain ⟨phiC, hget, hsum⟩ := hall c hc
  have hgetD : res.phi.getD c [] = phiC := by
    rw [List.getD_eq_getElem?_getD, hget]
    rfl
  rw [h0, hgetD, hsum]
  have hz : (baseValue e).getD c 0 +
      ((queryPrediction e x).getD c 0 - (baseValue e).getD c 0) -
      (queryPrediction e x).getD c 0 = 0 := by ring
  rw [hz]
  norm_num

/-- Witness for C1: a one-feature run that returns a result, whose single
attribution `2` plus base value `5` matches the query prediction `7`. -/
theorem explain_efficiency_witness :
    explain (kernelShap exSumModel [[5]] 0) [7] 2 = Except.ok ⟨[5], [[2]]⟩ ∧
    |(ExplainResult.mk [5] [[2]]).phi0.getD 0 0 +
        ((ExplainResult.mk [5] [[2]]).phi.getD 0 []).sum -
        (queryPrediction (kernelShap exSumModel [[5]] 0) [7]).getD 0 0|
      < 1 / 1000000 := by
  have h : explain (kernelShap exSumModel [[5]] 0) [7] 2 =
      Except.ok ⟨[5], [[2]]⟩ := by
    norm_num [explain, explainSols, classSolution, featureCount, kernelShap,
      sampleCoalitions, enumStage, remainingSizes, prepareSampling, tileRows,
      addSample, numClasses, baseValue, queryPrediction, solveClass,
      gaussSolve, pivotRow, allMasksOfSize, maskOf, omegaSize, kernelW,
      mcLoop, pickSize, drawDistinct, randBelow, lcgNext, complementMask,
      List.filter, List.range_succ, List.range_zero, Function.comp,
      exSumModel]
  exact ⟨h, explain_efficiency (kernelShap exSumModel [[5]] 0) [7] 2
    ⟨[5], [[2]]⟩ h 0 (by simp)⟩

end RationalClaims

section RealLemmas

theorem sigmoid_interval (t lo hi : ℝ) (h0 : 0 ≤ lo)
    (h1 : lo ≤ Real.exp (-t)) (h2 : Real.exp (-t) ≤ hi) :
    1 / (1 + hi) ≤ sigmoid t ∧ sigmoid t ≤ 1 / (1 + lo) := by
  have hE := Real.exp_pos (-t)
  rw [sigmoid]
  constructor
  · exact one_div_le_one_div_of_le (by linarith) (by linarith)
  · exact one_div_le_one_div_of_le (by linarith) (by linarith)

theorem exp_half_sq (t : ℝ) : Real.exp t = Real.exp (t / 2) ^ 2 := by
  have h : ((2 : ℕ) : ℝ) * (t / 2) = t := by push_cast; ring
  nth_rewrite 1 [← h]
  rw [Real.exp_nat_mul]

theorem exp_sq_bounds (t a b : ℝ) (ha : 0 ≤ a)
    (h1 : a ≤ Real.exp (t / 2)) (h2 : Real.exp (t / 2) ≤ b) :
    a ^ 2 ≤ Real.exp t ∧ Real.exp t ≤ b ^ 2 := by
  rw [exp_half_sq t]
  constructor <;> nlinarith [Real.exp_pos (t / 2)]

theorem expHalf1 :
    (0.647504199178 : ℝ) ≤ Real.exp (-0.43463) ∧ Real.exp (-0.43463) ≤ 0.647504199325 := by
  have habs : |(-0.43463 : ℝ)| = 0.43463 := by
    rw [abs_of_nonpos] <;> norm_num
  have hb := Real.exp_bound (x := (-0.43463 : ℝ)) (by rw [habs]; norm_num)
    (n := 10) (by norm_num)
  rw [habs, abs_le] at hb
  obtain ⟨h1, h2⟩ := hb
  simp only [Finset.sum_range_succ, Finset.sum_range_zero] at h1 h2
  norm_num [Nat.factorial] at h1 h2
  constructor <;> linarith [h1, h2]

theorem expT1 :
    (0.419261687953 : ℝ) ≤ Real.exp (-(0.86926) : ℝ) ∧ Real.exp (-(0.86926) : ℝ) ≤ 0.419261688144 := by
  have harg : (-(0.86926 : ℝ)) / 2 = -0.43463 := by norm_num
  have h := exp_sq_bounds (-(0.86926 : ℝ)) 0.647504199178 0.647504199325
    (by norm_num) (by rw [harg]; exact expHalf1.1) (by rw [harg]; exact expHalf1.2)
  constructor
  · calc (0.419261687953 : ℝ) ≤ 0.647504199178 ^ 2 := by norm_num
      _ ≤ _ := h.1
  · calc Real.exp (-(0.86926) : ℝ) ≤ 0.647504199325 ^ 2 := h.2
      _ ≤ 0.419261688144 := by norm_num

theorem sigB1 :
    (0.704591696058 : ℝ) ≤ sigmoid (0.86926) ∧ sigmoid (0.86926) ≤ 0.704591696154 := by
  have h := sigmoid_interval (0.86926) 0.419261687953 0.419261688144
    (by norm_num) expT1.1 expT1.2
  constructor
  · calc (0.704591696058 : ℝ) ≤ 1 / (1 + 0.419261688144) := by norm_num
      _ ≤ _ := h.1
  · calc sigmoid (0.86926) ≤ 1 / (1 + 0.419261687953) := h.2
      _ ≤ 0.704591696154 := by norm_num

theorem expHalf2 :
    (0.853732385694 : ℝ) ≤ Real.exp (-0.1581375) ∧ Real.exp (-0.1581375) ≤ 0.853732385695 := by
  have habs : |(-0.1581375 : ℝ)| = 0.1581375 := by
    rw [abs_of_nonpos] <;> norm_num
  have hb := Real.exp_bound (x := (-0.1581375 : ℝ)) (by rw [habs]; norm_num)
    (n := 10) (by norm_num)
  rw [habs, abs_le] at hb
  obtain ⟨h1, h2⟩ := hb
  simp only [Finset.sum_range_succ, Finset.sum_range_zero] at h1 h2
  norm_num [Nat.factorial] at h1 h2
  constructor <;> linarith [h1, h2]

theorem expT2 :
    (0.728858986382 : ℝ) ≤ Real.exp (-(0.316275) : ℝ) ∧ Real.exp (-(0.316275) : ℝ) ≤ 0.728858986385 := by
  have harg : (-(0.316275 : ℝ)) / 2 = -0.1581375 := by norm_num
  have h := exp_sq_bounds (-(0.316275 : ℝ)) 0.853732385694 0.853732385695
    (by norm_num) (by rw [harg]; exact expHalf2.1) (by rw [harg]; exact expHalf2.2)
  constructor
  · calc (0.728858986382 : ℝ) ≤ 0.853732385694 ^ 2 := by norm_num
      _ ≤ _ := h.1
  · calc Real.exp (-(0.316275) : ℝ) ≤ 0.853732385695 ^ 2 := h.2
      _ ≤ 0.728858986385 := by norm_num

theorem sigB2 :
    (0.578416173832 : ℝ) ≤ sigmoid (0.316275) ∧ sigmoid (0.316275) ≤ 0.578416173834 := by
  have h := sigmoid_interval (0.316275) 0.728858986382 0.728858986385
    (by norm_num) expT2.1 expT2.2
  constructor
  · calc (0.578416173832 : ℝ) ≤ 1 / (1 + 0.728858986385) := by norm_num
      _ ≤ _ := h.1
  · calc sigmoid (0.316275) ≤ 1 / (1 + 0.728858986382) := h.2
      _ ≤ 0.578416173834 := by norm_num

theorem expHalf3 :
    (0.601654149605 : ℝ) ≤ Real.exp (-0.5080725) ∧ Real.exp (-0.5080725) ≤ 0.601654150301 := by
  have habs : |(-0.5080725 : ℝ)| = 0.5080725 := by
    rw [abs_of_nonpos] <;> norm_num
  have hb := Real.exp_bound (x := (-0.5080725 : ℝ)) (by rw [habs]; norm_num)
    (n := 10) (by norm_num)
  rw [habs, abs_le] at hb
  obtain ⟨h1, h2⟩ := hb
  simp only [Finset.sum_range_succ, Finset.sum_range_zero] at h1 h2
  norm_num [Nat.factorial] at h1 h2
  constructor <;> linarith [h1, h2]

theorem expT3 :
    (0.361987715736 : ℝ) ≤ Real.exp (-(1.016145) : ℝ) ∧ Real.exp (-(1.016145) : ℝ) ≤ 0.361987716575 := by
  have harg : (-(1.016145 : ℝ)) / 2 = -0.5080725 := by norm_num
  have h := exp_sq_bounds (-(1.016145 : ℝ)) 0.601654149605 0.601654150301
    (by norm_num) (by rw [harg]; exact expHalf3.1) (by rw [harg]; exact expHalf3.2)
  constructor
  · calc (0.361987715736 : ℝ) ≤ 0.601654149605 ^ 2 := by norm_num
      _ ≤ _ := h.1
  · calc Real.exp (-(1.016145) : ℝ) ≤ 0.601654150301 ^ 2 := h.2
      _ ≤ 0.361987716575 := by norm_num

theorem sigB3 :
    (0.734221012297 : ℝ) ≤ sigmoid (1.016145) ∧ sigmoid (1.016145) ≤ 0.734221012750 := by
  have h := sigmoid_interval (1.016145) 0.361987715736 0.361987716575
    (by norm_num) expT3.1 expT3.2
  constructor
  · calc (0.734221012297 : ℝ) ≤ 1 / (1 + 0.361987716575) := by norm_num
      _ ≤ _ := h.1
  · calc sigmoid (1.016145) ≤ 1 / (1 + 0.361987715736) := h.2
      _ ≤ 0.734221012750 := by norm_num

theorem expHalf4 :
    (0.926440921995 : ℝ) ≤ Real.exp (-0.076405) ∧ Real.exp (-0.076405) ≤ 0.926440921996 := by
  have habs : |(-0.076405 : ℝ)| = 0.076405 := by
    rw [abs_of_nonpos] <;> norm_num
  have hb := Real.exp_bound (x := (-0.076405 : ℝ)) (by rw [habs]; norm_num)
    (n := 10) (by norm_num)
  rw [habs, abs_le] at hb
  obtain ⟨h1, h2⟩ := hb
  simp only [Finset.sum_range_succ, Finset.sum_range_zero] at h1 h2
  norm_num [Nat.factorial] at h1 h2
  constructor <;> linarith [h1, h2]

theorem expT4 :
    (0.858292781946 : ℝ) ≤ Real.exp (-(0.15281) : ℝ) ∧ Real.exp (-(0.15281) : ℝ) ≤ 0.858292781949 := by
  have harg : (-(0.15281 : ℝ)) / 2 = -0.076405 := by norm_num
  have h := exp_sq_bounds (-(0.15281 : ℝ)) 0.926440921995 0.926440921996
    (by norm_num) (by rw [harg]; exact expHalf4.1) (by rw [harg]; exact expHalf4.2)
  constructor
  · calc (0.858292781946 : ℝ) ≤ 0.926440921995 ^ 2 := by norm_num
      _ ≤ _ := h.1
  · calc Real.exp (-(0.15281) : ℝ) ≤ 0.926440921996 ^ 2 := h.2
      _ ≤ 0.858292781949 := by norm_num

theorem sigB4 :
    (0.538128334627 : ℝ) ≤ sigmoid (0.15281) ∧ sigmoid (0.15281) ≤ 0.538128334629 := by
  have h := sigmoid_interval (0.15281) 0.858292781946 0.858292781949
    (by norm_num) expT4.1 expT4.2
  constructor
  · calc (0.538128334627 : ℝ) ≤ 1 / (1 + 0.858292781949) := by norm_num
      _ ≤ _ := h.1
  · calc sigmoid (0.15281) ≤ 1 / (1 + 0.858292781946) := h.2
      _ ≤ 0.538128334629 := by norm_num

theorem expHalf5 :
    (2.020798016805 : ℝ) ≤ Real.exp (0.7034925) ∧ Real.exp (0.7034925) ≤ 2.020798034805 := by
  have habs : |(0.7034925 : ℝ)| = 0.7034925 := abs_of_nonneg (by norm_num)
  have hb := Real.exp_bound (x := (0.7034925 : ℝ)) (by rw [habs]; norm_num)
    (n := 10) (by norm_num)
  rw [habs, abs_le] at hb
  obtain ⟨h1, h2⟩ := hb
  simp only [Finset.sum_range_succ, Finset.sum_range_zero] at h1 h2
  norm_num [Nat.factorial] at h1 h2
  constructor <;> linarith [h1, h2]

theorem expT5 :
    (4.083624624723 : ℝ) ≤ Real.exp (-(-1.406985) : ℝ) ∧ Real.exp (-(-1.406985) : ℝ) ≤ 4.083624697472 := by
  have harg : (-(-1.406985 : ℝ)) / 2 = 0.7034925 := by norm_num
  have h := exp_sq_bounds (-(-1.406985 : ℝ)) 2.020798016805 2.020798034805
    (by norm_num) (by rw [harg]; exact expHalf5.1) (by rw [harg]; exact expHalf5.2)
  constructor
  · calc (4.083624624723 : ℝ) ≤ 2.020798016805 ^ 2 := by norm_num
      _ ≤ _ := h.1
  · calc Real.exp (-(-1.406985) : ℝ) ≤ 2.020798034805 ^ 2 := h.2
      _ ≤ 4.083624697472 := by norm_num

theorem sigB5 :
    (0.196710036540 : ℝ) ≤ sigmoid (-1.406985) ∧ sigmoid (-1.406985) ≤ 0.196710039356 := by
  have h := sigmoid_interval (-1.406985) 4.083624624723 4.083624697472
    (by norm_num) expT5.1 expT5.2
  constructor
  · calc (0.196710036540 : ℝ) ≤ 1 / (1 + 4.083624697472) := by norm_num
      _ ≤ _ := h.1
  · calc sigmoid (-1.406985) ≤ 1 / (1 + 4.083624624723) := h.2
      _ ≤ 0.196710039356 := by norm_num

theorem irisPredictionAt_0 : irisPredictionAt 0 = sigmoid (0.86926) := by
  simp only [irisPredictionAt, irisExplainer, kernelShap, irisModel, irisData,
    irisPredictRow, dotList, irisCoef, irisIntercept, List.map_cons,
    List.map_nil, List.zip_cons_cons, List.zip_nil_right, List.sum_cons,
    List.sum_nil, List.getD_cons_zero, List.getD_cons_succ]
  norm_num

theorem irisPredictionAt_1 : irisPredictionAt 1 = sigmoid (0.316275) := by
  simp only [irisPredictionAt, irisExplainer, kernelShap, irisModel, irisData,
    irisPredictRow, dotList, irisCoef, irisIntercept, List.map_cons,
    List.map_nil, List.zip_cons_cons, List.zip_nil_right, List.sum_cons,
    List.sum_nil, List.getD_cons_zero, List.getD_cons_succ]
  norm_num

theorem irisPredictionAt_2 : irisPredictionAt 2 = sigmoid (1.016145) := by
  simp only [irisPredictionAt, irisExplainer, kernelShap, irisModel, irisData,
    irisPredictRow, dotList, irisCoef, irisIntercept, List.map_cons,
    List.map_nil, List.zip_cons_cons, List.zip_nil_right, List.sum_cons,
    List.sum_nil, List.getD_cons_zero, List.getD_cons_succ]
  norm_num

theorem irisPredictionAt_3 : irisPredictionAt 3 = sigmoid (0.15281) := by
  simp only [irisPredictionAt, irisExplainer, kernelShap, irisModel, irisData,
    irisPredictRow, dotList, irisCoef, irisIntercept, List.map_cons,
    List.map_nil, List.zip_cons_cons, List.zip_nil_right, List.sum_cons,
    List.sum_nil, List.getD_cons_zero, List.getD_cons_succ]
  norm_num

theorem irisPredictionAt_4 : irisPredictionAt 4 = sigmoid (-1.406985) := by
  simp only [irisPredictionAt, irisExplainer, kernelShap, irisModel, irisData,
    irisPredictRow, dotList, irisCoef, irisIntercept, List.map_cons,
    List.map_nil, List.zip_cons_cons, List.zip_nil_right, List.sum_cons,
    List.sum_nil, List.getD_cons_zero, List.getD_cons_succ]
  norm_num

theorem irisBaseValue_eq :
    irisBaseValue =
      (sigmoid 0.86926 + (sigmoid 0.316275 + (sigmoid 1.016145 +
        (sigmoid 0.15281 + (sigmoid (-1.406985) + 0))))) / 5 := by
  simp only [irisBaseValue, baseValue, numClasses, irisExplainer, kernelShap,
    irisModel, irisData, irisPredictRow, dotList, irisCoef, irisIntercept,
    List.map_cons, List.map_nil, List.zip_cons_cons, List.zip_nil_right,
    List.sum_cons, List.sum_nil, List.getD_cons_zero, List.headD_cons,
    List.length_cons, List.length_nil, List.range_succ, List.range_zero]
  norm_num

end RealLemmas

section RealClaims

/-- C9: for the S1 Iris configuration, the class-1 predictions the explainer
caches at construction match, per background row and within `1e−6`, the
values `0.7045917, 0.5784162, 0.7342210, 0.5381283, 0.1967100`. -/
theorem irisPredictions_close :
    |irisPredictionAt 0 - 0.7045917| < 1 / 1000000 ∧
    |irisPredictionAt 1 - 0.5784162| < 1 / 1000000 ∧
    |irisPredictionAt 2 - 0.7342210| < 1 / 1000000 ∧
    |irisPredictionAt 3 - 0.5381283| < 1 / 1000000 ∧
    |irisPredictionAt 4 - 0.1967100| < 1 / 1000000 := by
  refine ⟨?_, ?_, ?_, ?_, ?_⟩
  · rw [irisPredictionAt_0, abs_lt]
    constructor <;> linarith [sigB1.1, sigB1.2]
  · rw [irisPredictionAt_1, abs_lt]
    constructor <;> linarith [sigB2.1, sigB2.2]
  · rw [irisPredictionAt_2, abs_lt]
    constructor <;> linarith [sigB3.1, sigB3.2]
  · rw [irisPredictionAt_3, abs_lt]
    constructor <;> linarith [sigB4.1, sigB4.2]
  · rw [irisPredictionAt_4, abs_lt]
    constructor <;> linarith [sigB5.1, sigB5.2]

/-- C5 (amended): `base_value()` returns the column means of the predictor
output cached over the background; for the S1 Iris setup the class-1 base
value is ≈ 0.5504134 (the mean of the five S1 predictions), not the
0.54557347 the spec quotes. -/
theorem baseValue_meanPredictions :
    (∀ (f : List (List ℚ) → List (List ℚ)) (data : List (List ℚ))
        (seed c : ℕ), c < numClasses (kernelShap f data seed) →
      (baseValue (kernelShap f data seed)).getD c 0 =
        ((f data).map fun row => row.getD c 0).sum / ((f data).length : ℚ)) ∧
    |irisBaseValue - 0.5504134| < 1 / 1000000 := by
  constructor
  · intro f data seed c hc
    rw [baseValue, List.getD_eq_getElem?_getD, List.getElem?_map,
      List.getElem?_range hc, Option.map_some', Option.getD_some]
    rfl
  · rw [irisBaseValue_eq, abs_lt]
    constructor <;>
      linarith [sigB1.1, sigB1.2, sigB2.1, sigB2.2, sigB3.1, sigB3.2,
        sigB4.1, sigB4.2, sigB5.1, sigB5.2]

/-- Witness for C5: on a concrete two-class identity predictor the base value
of class 0 equals the column mean. -/
theorem baseValue_meanPredictions_witness :
    0 < numClasses (kernelShap exModel exData 0) ∧
    (baseValue (kernelShap exModel exData 0)).getD 0 0 =
      ((exModel exData).map fun row => row.getD 0 0).sum /
        ((exModel exData).length : ℚ) :=
  ⟨by decide, baseValue_meanPredictions.1 exModel exData 0 0 (by decide)⟩

/-- Counterexample for C5 as stated: the S1 class-1 base value is not within
`1e−6` of 0.54557347 — it exceeds 0.55 while the mean of the quoted S2 value
would require ≈ 0.5456. -/
theorem baseValue_s2Mismatch : ¬ |irisBaseValue - 0.54557347| < 1 / 1000000 := by
  rw [irisBaseValue_eq, not_lt, le_abs]
  left
  linarith [sigB1.1, sigB2.1, sigB3.1, sigB4.1, sigB5.1]

end RealClaims

end WebShap
